import Mathlib

/-!
Shallow embedding of the `bounding-space-rs` crate (`src/lib.rs`).

The crate defines `BoundingSpaceN<T, D>` over a `RealField` scalar `T`
(for the claims here, `f64`) and a type-level dimension `D`.  We model the
scalar as a rational number extended with a `NaN` element, capturing the
two operations the code uses on scalars:

* Rust's `PartialOrd` comparisons (`<`, `>`), which are `false` whenever
  either operand is `NaN`;
* `RealField::min` / `RealField::max`, which for `f64` are the standard
  library `f64::min` / `f64::max`: if one argument is `NaN` the other is
  returned, otherwise the usual minimum / maximum.

Points (`OPoint<T, D>`) are modelled as functions `Fin d → Flt`; the
type-level dimension of the Rust code becomes the parameter `d`.
-/

/-- The scalar type: a rational number or `NaN`.  Models `f64` restricted
to the operations the crate uses (ordered comparison, `min`, `max`). -/
inductive Flt where
  | nan : Flt
  | fin : ℚ → Flt
deriving DecidableEq, Repr

/-- Rust `PartialOrd` `<` on `f64`: false when either operand is `NaN`. -/
def Flt.lt : Flt → Flt → Bool
  | .fin a, .fin b => decide (a < b)
  | _, _ => false

/-- Rust `PartialOrd` `>` on `f64`: false when either operand is `NaN`. -/
def Flt.gt (a b : Flt) : Bool := Flt.lt b a

/-- Rust `PartialOrd` `<=` on `f64`: false when either operand is `NaN`. -/
def Flt.le : Flt → Flt → Bool
  | .fin a, .fin b => decide (a ≤ b)
  | _, _ => false

/-- `f64::min` (what `simba`'s `RealField::min` delegates to for `f64`):
if one of the arguments is `NaN`, the other argument is returned. -/
def Flt.min : Flt → Flt → Flt
  | .nan, b => b
  | a, .nan => a
  | .fin a, .fin b => .fin (Min.min a b)

/-- `f64::max` (what `simba`'s `RealField::max` delegates to for `f64`):
if one of the arguments is `NaN`, the other argument is returned. -/
def Flt.max : Flt → Flt → Flt
  | .nan, b => b
  | a, .nan => a
  | .fin a, .fin b => .fin (Max.max a b)

/-- `struct BoundingSpaceN<T, D> { lower: OPoint<T, D>, upper: OPoint<T, D> }`. -/
structure BoundingSpaceN (d : ℕ) where
  lower : Fin d → Flt
  upper : Fin d → Flt

instance (d : ℕ) : DecidableEq (BoundingSpaceN d) :=
  fun s t =>
    decidable_of_iff (s.lower = t.lower ∧ s.upper = t.upper)
      (by cases s; cases t; simp)

/-- `BoundingSpaceN::new(lower, upper)`: stores the corners verbatim. -/
def BoundingSpaceN.new {d : ℕ} (lower upper : Fin d → Flt) : BoundingSpaceN d :=
  { lower := lower, upper := upper }

/-- `BoundingSpaceN::from_point(point)`: both corners set to `point`. -/
def BoundingSpaceN.from_point {d : ℕ} (point : Fin d → Flt) : BoundingSpaceN d :=
  BoundingSpaceN.new point point

/-- `BoundingSpaceN::from_value(value)`: both corners are the point whose
every component is `value` (`OVector::repeat`). -/
def BoundingSpaceN.from_value (d : ℕ) (value : Flt) : BoundingSpaceN d :=
  { lower := fun _ => value, upper := fun _ => value }

/-- `BoundingSpaceN::from_values(lower, upper)`: every `lower` component is
the first scalar, every `upper` component the second (`OVector::repeat`). -/
def BoundingSpaceN.from_values (d : ℕ) (lower upper : Flt) : BoundingSpaceN d :=
  { lower := fun _ => lower, upper := fun _ => upper }

/-- `BoundingSpaceN::contains(&self, point)`: the first loop returns
`false` as soon as some `lower` component compares `>` the point's
component, the second as soon as some `upper` component compares `<`;
otherwise the result is `true`.  A loop with early return over pure tests
is the conjunction of the tests, so each loop is a `List.all` over the
component indices, kept as two separate scans as in the source. -/
def BoundingSpaceN.contains {d : ℕ} (s : BoundingSpaceN d) (p : Fin d → Flt) : Bool :=
  ((List.finRange d).all fun i => ! (s.lower i).gt (p i)) &&
  ((List.finRange d).all fun i => ! (s.upper i).lt (p i))

/-- `BoundingSpaceN::expand_lower(&mut self, point)`:
`self.lower.coords.zip_apply(&point.coords, |l, p| *l = p.min(l))`. -/
def BoundingSpaceN.expand_lower {d : ℕ} (s : BoundingSpaceN d) (p : Fin d → Flt) :
    BoundingSpaceN d :=
  { s with lower := fun i => (p i).min (s.lower i) }

/-- `BoundingSpaceN::expand_upper(&mut self, point)`:
`self.upper.coords.zip_apply(&point.coords, |u, p| *u = p.max(u))`. -/
def BoundingSpaceN.expand_upper {d : ℕ} (s : BoundingSpaceN d) (p : Fin d → Flt) :
    BoundingSpaceN d :=
  { s with upper := fun i => (p i).max (s.upper i) }

/-- `BoundingSpaceN::expand(&mut self, point)`: `expand_lower` then
`expand_upper`. -/
def BoundingSpaceN.expand {d : ℕ} (s : BoundingSpaceN d) (p : Fin d → Flt) :
    BoundingSpaceN d :=
  (s.expand_lower p).expand_upper p

/-- A sequence of `expand` calls, applied left to right. -/
def BoundingSpaceN.expand_all {d : ℕ} (s : BoundingSpaceN d)
    (ps : List (Fin d → Flt)) : BoundingSpaceN d :=
  ps.foldl (fun t p => t.expand p) s

/-! ### Scalar lemmas -/

theorem Flt.lt_nan_left (a : Flt) : Flt.lt .nan a = false := by cases a <;> rfl

theorem Flt.lt_nan_right (a : Flt) : Flt.lt a .nan = false := by cases a <;> rfl

theorem Flt.gt_nan_left (a : Flt) : Flt.gt .nan a = false := Flt.lt_nan_right a

theorem Flt.gt_nan_right (a : Flt) : Flt.gt a .nan = false := Flt.lt_nan_left a

theorem Flt.min_nan_left (a : Flt) : Flt.min .nan a = a := by cases a <;> rfl

theorem Flt.max_nan_left (a : Flt) : Flt.max .nan a = a := by cases a <;> rfl

theorem Flt.min_nan_right (a : Flt) : Flt.min a .nan = a := by cases a <;> rfl

theorem Flt.max_nan_right (a : Flt) : Flt.max a .nan = a := by cases a <;> rfl

theorem Flt.gt_fin_eq_false_iff (x y : ℚ) :
    Flt.gt (.fin x) (.fin y) = false ↔ x ≤ y := by
  simp [Flt.gt, Flt.lt, not_lt]

theorem Flt.lt_fin_eq_false_iff (x y : ℚ) :
    Flt.lt (.fin x) (.fin y) = false ↔ y ≤ x := by
  simp [Flt.lt, not_lt]

theorem Flt.le_fin_iff (x y : ℚ) : Flt.le (.fin x) (.fin y) = true ↔ x ≤ y := by
  simp [Flt.le]

theorem Flt.le_true_elim {a b : Flt} (h : Flt.le a b = true) :
    ∃ x y, a = .fin x ∧ b = .fin y ∧ x ≤ y := by
  cases a with
  | nan => simp [Flt.le] at h
  | fin x =>
    cases b with
    | nan => simp [Flt.le] at h
    | fin y => exact ⟨x, y, rfl, rfl, by simpa [Flt.le] using h⟩

theorem Flt.ne_nan_elim {a : Flt} (h : a ≠ Flt.nan) : ∃ x, a = .fin x := by
  cases a with
  | nan => exact absurd rfl h
  | fin x => exact ⟨x, rfl⟩

/-! ### Characterization of `contains` -/

theorem BoundingSpaceN.contains_eq_true_iff {d : ℕ} (s : BoundingSpaceN d)
    (p : Fin d → Flt) :
    s.contains p = true ↔
      (∀ i, (s.lower i).gt (p i) = false) ∧ (∀ i, (s.upper i).lt (p i) = false) := by
  simp [BoundingSpaceN.contains, List.all_eq_true, List.mem_finRange]

/-! ### Expansion lemmas -/

theorem BoundingSpaceN.expand_lower_eq {d : ℕ} (s : BoundingSpaceN d) (p : Fin d → Flt)
    (i : Fin d) : (s.expand p).lower i = (p i).min (s.lower i) := rfl

theorem BoundingSpaceN.expand_upper_eq {d : ℕ} (s : BoundingSpaceN d) (p : Fin d → Flt)
    (i : Fin d) : (s.expand p).upper i = (p i).max (s.upper i) := rfl

theorem BoundingSpaceN.expand_preserves_order {d : ℕ} (s : BoundingSpaceN d)
    (p : Fin d → Flt) (h : ∀ i, (s.lower i).le (s.upper i) = true) :
    ∀ i, ((s.expand p).lower i).le ((s.expand p).upper i) = true := by
  intro i
  obtain ⟨x, y, hx, hy, hxy⟩ := Flt.le_true_elim (h i)
  rw [BoundingSpaceN.expand_lower_eq, BoundingSpaceN.expand_upper_eq, hx, hy]
  cases hp : p i with
  | nan => simpa [Flt.min, Flt.max, Flt.le_fin_iff] using hxy
  | fin z =>
    simp only [Flt.min, Flt.max, Flt.le_fin_iff]
    exact le_trans (min_le_right z x) (le_trans hxy (le_max_right z y))

theorem BoundingSpaceN.expand_all_cons {d : ℕ} (s : BoundingSpaceN d) (p : Fin d → Flt)
    (ps : List (Fin d → Flt)) : s.expand_all (p :: ps) = (s.expand p).expand_all ps := rfl

theorem BoundingSpaceN.expand_all_preserves_order_aux {d : ℕ} (ps : List (Fin d → Flt)) :
    ∀ s : BoundingSpaceN d, (∀ i, (s.lower i).le (s.upper i) = true) →
      ∀ i, ((s.expand_all ps).lower i).le ((s.expand_all ps).upper i) = true := by
  induction ps with
  | nil => intro s h i; exact h i
  | cons p ps ih =>
    intro s h i
    rw [BoundingSpaceN.expand_all_cons]
    exact ih (s.expand p) (s.expand_preserves_order p h) i

/-! ### Claims -/

/-- C1 counterexample: for the 1-dimensional region with `lower = 0`,
`upper = 1` (NaN-free corners) and the point whose single component is
`NaN`, `contains` returns `true`, not `false`: both comparisons `l > p`
and `u < p` are false when `p` is `NaN`, so neither early return fires. -/
theorem contains_nan_point_counterexample :
    ((fun _ : Fin 1 => Flt.nan) 0 = Flt.nan) ∧
    (BoundingSpaceN.from_values 1 (.fin 0) (.fin 1)).contains (fun _ => Flt.nan) = true := by
  constructor
  · rfl
  · decide

/-- C1 (amended): a `NaN` component never causes `contains` to reject —
the comparisons against a `NaN` are false, so the early returns do not
fire.  In particular, for every region, `contains` returns `true` on any
point all of whose components are `NaN`. -/
theorem contains_all_nan_point_true {d : ℕ} (s : BoundingSpaceN d) (p : Fin d → Flt)
    (hp : ∀ i, p i = Flt.nan) : s.contains p = true := by
  rw [BoundingSpaceN.contains_eq_true_iff]
  exact ⟨fun i => by rw [hp i]; exact Flt.gt_nan_right _,
         fun i => by rw [hp i]; exact Flt.lt_nan_right _⟩

/-- C1 (amended) witness: concrete 2-dimensional instance. -/
theorem contains_all_nan_point_true_witness :
    (BoundingSpaceN.from_values 2 (.fin 0) (.fin 1)).contains (fun _ => Flt.nan) = true :=
  contains_all_nan_point_true (BoundingSpaceN.from_values 2 (.fin 0) (.fin 1))
    (fun _ => Flt.nan) (fun _ => rfl)

/-- C2: with NaN-free corners and a NaN-free point, `contains p` is true
iff every component satisfies `lower[i] <= p[i]` and `p[i] <= upper[i]`;
for a non-inverted region both corners are contained; a point strictly
outside some bound is not contained. -/
theorem contains_iff_componentwise_bounds {d : ℕ} (s : BoundingSpaceN d)
    (p : Fin d → Flt)
    (hl : ∀ i, s.lower i ≠ Flt.nan) (hu : ∀ i, s.upper i ≠ Flt.nan)
    (hp : ∀ i, p i ≠ Flt.nan) :
    (s.contains p = true ↔
      ∀ i, (s.lower i).le (p i) = true ∧ (p i).le (s.upper i) = true) ∧
    ((∀ i, (s.lower i).le (s.upper i) = true) →
      s.contains s.lower = true ∧ s.contains s.upper = true) ∧
    ((∃ i, (p i).lt (s.lower i) = true ∨ (s.upper i).lt (p i) = true) →
      s.contains p = false) := by
  have key : ∀ q : Fin d → Flt, (∀ i, q i ≠ Flt.nan) →
      (s.contains q = true ↔
        ∀ i, (s.lower i).le (q i) = true ∧ (q i).le (s.upper i) = true) := by
    intro q hq
    rw [BoundingSpaceN.contains_eq_true_iff, ← forall_and]
    refine forall_congr' fun i => ?_
    obtain ⟨x, hx⟩ := Flt.ne_nan_elim (hl i)
    obtain ⟨y, hy⟩ := Flt.ne_nan_elim (hu i)
    obtain ⟨z, hz⟩ := Flt.ne_nan_elim (hq i)
    rw [hx, hy, hz, Flt.gt_fin_eq_false_iff, Flt.lt_fin_eq_false_iff,
      Flt.le_fin_iff, Flt.le_fin_iff]
  refine ⟨key p hp, fun hord => ?_, fun hbad => ?_⟩
  · constructor
    · rw [key s.lower hl]
      intro i
      obtain ⟨x, hx⟩ := Flt.ne_nan_elim (hl i)
      exact ⟨by rw [hx, Flt.le_fin_iff], hord i⟩
    · rw [key s.upper hu]
      intro i
      obtain ⟨y, hy⟩ := Flt.ne_nan_elim (hu i)
      exact ⟨hord i, by rw [hy, Flt.le_fin_iff]⟩
  · obtain ⟨i, hi⟩ := hbad
    cases hc : s.contains p with
    | false => rfl
    | true =>
      exfalso
      obtain ⟨h1, h2⟩ := (key p hp).mp hc i
      obtain ⟨x, hx⟩ := Flt.ne_nan_elim (hl i)
      obtain ⟨y, hy⟩ := Flt.ne_nan_elim (hu i)
      obtain ⟨z, hz⟩ := Flt.ne_nan_elim (hp i)
      rw [hx, hz, Flt.le_fin_iff] at h1
      rw [hy, hz, Flt.le_fin_iff] at h2
      rcases hi with hi | hi
      · rw [hz, hx, Flt.lt] at hi
        exact absurd h1 (not_le.mpr (by simpa using hi))
      · rw [hy, hz, Flt.lt] at hi
        exact absurd h2 (not_le.mpr (by simpa using hi))

/-- C2 witness: the 1-dimensional region `[0, 1]` and the point `1`. -/
theorem contains_iff_componentwise_bounds_witness :
    ((∀ i : Fin 1, (BoundingSpaceN.from_values 1 (.fin 0) (.fin 1)).lower i ≠ Flt.nan) ∧
     (∀ i : Fin 1, (BoundingSpaceN.from_values 1 (.fin 0) (.fin 1)).upper i ≠ Flt.nan) ∧
     (∀ i : Fin 1, (fun _ : Fin 1 => Flt.fin 1) i ≠ Flt.nan)) ∧
    (((BoundingSpaceN.from_values 1 (.fin 0) (.fin 1)).contains (fun _ => Flt.fin 1) = true ↔
      ∀ i, ((BoundingSpaceN.from_values 1 (.fin 0) (.fin 1)).lower i).le
          ((fun _ : Fin 1 => Flt.fin 1) i) = true ∧
        ((fun _ : Fin 1 => Flt.fin 1) i).le
          ((BoundingSpaceN.from_values 1 (.fin 0) (.fin 1)).upper i) = true) ∧
    ((∀ i, ((BoundingSpaceN.from_values 1 (.fin 0) (.fin 1)).lower i).le
        ((BoundingSpaceN.from_values 1 (.fin 0) (.fin 1)).upper i) = true) →
      (BoundingSpaceN.from_values 1 (.fin 0) (.fin 1)).contains
          (BoundingSpaceN.from_values 1 (.fin 0) (.fin 1)).lower = true ∧
        (BoundingSpaceN.from_values 1 (.fin 0) (.fin 1)).contains
          (BoundingSpaceN.from_values 1 (.fin 0) (.fin 1)).upper = true) ∧
    ((∃ i, ((fun _ : Fin 1 => Flt.fin 1) i).lt
          ((BoundingSpaceN.from_values 1 (.fin 0) (.fin 1)).lower i) = true ∨
        ((BoundingSpaceN.from_values 1 (.fin 0) (.fin 1)).upper i).lt
          ((fun _ : Fin 1 => Flt.fin 1) i) = true) →
      (BoundingSpaceN.from_values 1 (.fin 0) (.fin 1)).contains
        (fun _ => Flt.fin 1) = false)) :=
  ⟨⟨by decide, by decide, by decide⟩,
   contains_iff_componentwise_bounds (BoundingSpaceN.from_values 1 (.fin 0) (.fin 1))
     (fun _ => Flt.fin 1) (by decide) (by decide) (by decide)⟩

/-- C3: expanding the all-`NaN` region `from_value(NaN)` with a NaN-free
point `p` makes both corners equal to `p` componentwise; no `NaN`
remains in either corner. -/
theorem expand_from_nan_seed_adopts_point {d : ℕ} (p : Fin d → Flt)
    (hp : ∀ i, p i ≠ Flt.nan) :
    ((BoundingSpaceN.from_value d Flt.nan).expand p).lower = p ∧
    ((BoundingSpaceN.from_value d Flt.nan).expand p).upper = p ∧
    (∀ i, ((BoundingSpaceN.from_value d Flt.nan).expand p).lower i ≠ Flt.nan) ∧
    (∀ i, ((BoundingSpaceN.from_value d Flt.nan).expand p).upper i ≠ Flt.nan) := by
  have hlow : ((BoundingSpaceN.from_value d Flt.nan).expand p).lower = p :=
    funext fun i => by
      rw [BoundingSpaceN.expand_lower_eq]
      exact Flt.min_nan_right (p i)
  have hup : ((BoundingSpaceN.from_value d Flt.nan).expand p).upper = p :=
    funext fun i => by
      rw [BoundingSpaceN.expand_upper_eq]
      exact Flt.max_nan_right (p i)
  exact ⟨hlow, hup, fun i => by rw [hlow]; exact hp i, fun i => by rw [hup]; exact hp i⟩

/-- C3 witness: dimension 1, `p = 0`. -/
theorem expand_from_nan_seed_adopts_point_witness :
    ((BoundingSpaceN.from_value 1 Flt.nan).expand (fun _ => Flt.fin 0)).lower =
        (fun _ : Fin 1 => Flt.fin 0) ∧
    ((BoundingSpaceN.from_value 1 Flt.nan).expand (fun _ => Flt.fin 0)).upper =
        (fun _ : Fin 1 => Flt.fin 0) ∧
    (∀ i, ((BoundingSpaceN.from_value 1 Flt.nan).expand
        (fun _ => Flt.fin 0)).lower i ≠ Flt.nan) ∧
    (∀ i, ((BoundingSpaceN.from_value 1 Flt.nan).expand
        (fun _ => Flt.fin 0)).upper i ≠ Flt.nan) :=
  expand_from_nan_seed_adopts_point (fun _ => Flt.fin 0) (by decide)

/-- C4: `expand_lower` sets each lower component to `min(p[i], lower[i])`
and `expand_upper` sets each upper component to `max(p[i], upper[i])`,
where the `min`/`max` primitive discards a `NaN` operand on either side. -/
theorem expand_lower_upper_min_max {d : ℕ} (s : BoundingSpaceN d) (p : Fin d → Flt) :
    (∀ i, (s.expand_lower p).lower i = (p i).min (s.lower i)) ∧
    (∀ i, (s.expand_upper p).upper i = (p i).max (s.upper i)) ∧
    (∀ x : Flt, Flt.min Flt.nan x = x ∧ Flt.min x Flt.nan = x ∧
      Flt.max Flt.nan x = x ∧ Flt.max x Flt.nan = x) :=
  ⟨fun _ => rfl, fun _ => rfl,
   fun x => ⟨Flt.min_nan_left x, Flt.min_nan_right x,
     Flt.max_nan_left x, Flt.max_nan_right x⟩⟩

/-- C5 counterexample: the region `from_value(NaN)` in dimension 1
"contains" the point `0` (every comparison against `NaN` is false, so
`contains` returns `true`), yet `expand` with that point changes the
lower corner from `NaN` to `0`. -/
theorem expand_inside_nan_counterexample :
    (BoundingSpaceN.from_value 1 Flt.nan).contains (fun _ => Flt.fin 0) = true ∧
    ((BoundingSpaceN.from_value 1 Flt.nan).expand (fun _ => Flt.fin 0)).lower ≠
      (BoundingSpaceN.from_value 1 Flt.nan).lower := by
  refine ⟨by decide, fun h => ?_⟩
  have := congrFun h 0
  rw [BoundingSpaceN.expand_lower_eq] at this
  exact Flt.noConfusion this

/-- C5 (amended): for a region whose corners are NaN-free, expanding with
a point already contained leaves both corners unchanged. -/
theorem expand_inside_leaves_unchanged {d : ℕ} (s : BoundingSpaceN d) (p : Fin d → Flt)
    (hl : ∀ i, s.lower i ≠ Flt.nan) (hu : ∀ i, s.upper i ≠ Flt.nan)
    (hc : s.contains p = true) :
    (s.expand p).lower = s.lower ∧ (s.expand p).upper = s.upper := by
  obtain ⟨h1, h2⟩ := (BoundingSpaceN.contains_eq_true_iff s p).mp hc
  constructor
  · funext i
    rw [BoundingSpaceN.expand_lower_eq]
    obtain ⟨x, hx⟩ := Flt.ne_nan_elim (hl i)
    cases hpi : p i with
    | nan => rw [hx]; rfl
    | fin z =>
      have := h1 i
      rw [hx, hpi, Flt.gt_fin_eq_false_iff] at this
      rw [hx, Flt.min]
      exact congrArg Flt.fin (min_eq_right this)
  · funext i
    rw [BoundingSpaceN.expand_upper_eq]
    obtain ⟨y, hy⟩ := Flt.ne_nan_elim (hu i)
    cases hpi : p i with
    | nan => rw [hy]; rfl
    | fin z =>
      have := h2 i
      rw [hy, hpi, Flt.lt_fin_eq_false_iff] at this
      rw [hy, Flt.max]
      exact congrArg Flt.fin (max_eq_right this)

/-- C5 (amended) witness: region `[0, 1]`, point `1`. -/
theorem expand_inside_leaves_unchanged_witness :
    ((BoundingSpaceN.from_values 1 (.fin 0) (.fin 1)).expand
        (fun _ => Flt.fin 1)).lower =
      (BoundingSpaceN.from_values 1 (.fin 0) (.fin 1)).lower ∧
    ((BoundingSpaceN.from_values 1 (.fin 0) (.fin 1)).expand
        (fun _ => Flt.fin 1)).upper =
      (BoundingSpaceN.from_values 1 (.fin 0) (.fin 1)).upper :=
  expand_inside_leaves_unchanged (BoundingSpaceN.from_values 1 (.fin 0) (.fin 1))
    (fun _ => Flt.fin 1) (by decide) (by decide) (by decide)

/-- C6: starting from a region with NaN-free corners satisfying
`lower[i] <= upper[i]` for every `i`, any sequence of `expand` calls with
NaN-free points preserves `lower[i] <= upper[i]` for every `i`. -/
theorem expand_all_preserves_ordering {d : ℕ} (s : BoundingSpaceN d)
    (ps : List (Fin d → Flt))
    (hl : ∀ i, s.lower i ≠ Flt.nan) (hu : ∀ i, s.upper i ≠ Flt.nan)
    (hord : ∀ i, (s.lower i).le (s.upper i) = true)
    (hps : ∀ p ∈ ps, ∀ i, p i ≠ Flt.nan) :
    ∀ i, ((s.expand_all ps).lower i).le ((s.expand_all ps).upper i) = true :=
  BoundingSpaceN.expand_all_preserves_order_aux ps s hord

/-- C6 witness: region `[0, 1]` expanded with the two points `2` and `-1`. -/
theorem expand_all_preserves_ordering_witness :
    (((BoundingSpaceN.from_values 1 (.fin 0) (.fin 1)).expand_all
        [fun _ => Flt.fin 2, fun _ => Flt.fin (-1)]).lower 0).le
      (((BoundingSpaceN.from_values 1 (.fin 0) (.fin 1)).expand_all
        [fun _ => Flt.fin 2, fun _ => Flt.fin (-1)]).upper 0) = true :=
  expand_all_preserves_ordering (BoundingSpaceN.from_values 1 (.fin 0) (.fin 1))
    [fun _ => Flt.fin 2, fun _ => Flt.fin (-1)]
    (by decide) (by decide) (by decide) (by decide) 0

/-- C7: for a region with NaN-free corners and a NaN-free point `p`,
after `expand(p)` the region contains `p`, and every NaN-free point `q`
contained before the call is still contained after it. -/
theorem expand_contains_point_and_monotone {d : ℕ} (s : BoundingSpaceN d)
    (p : Fin d → Flt)
    (hl : ∀ i, s.lower i ≠ Flt.nan) (hu : ∀ i, s.upper i ≠ Flt.nan)
    (hp : ∀ i, p i ≠ Flt.nan) :
    (s.expand p).contains p = true ∧
    (∀ q : Fin d → Flt, (∀ i, q i ≠ Flt.nan) → s.contains q = true →
      (s.expand p).contains q = true) := by
  constructor
  · rw [BoundingSpaceN.contains_eq_true_iff]
    constructor
    · intro i
      rw [BoundingSpaceN.expand_lower_eq]
      obtain ⟨z, hz⟩ := Flt.ne_nan_elim (hp i)
      obtain ⟨x, hx⟩ := Flt.ne_nan_elim (hl i)
      rw [hz, hx, Flt.min, Flt.gt_fin_eq_false_iff]
      exact min_le_left z x
    · intro i
      rw [BoundingSpaceN.expand_upper_eq]
      obtain ⟨z, hz⟩ := Flt.ne_nan_elim (hp i)
      obtain ⟨y, hy⟩ := Flt.ne_nan_elim (hu i)
      rw [hz, hy, Flt.max, Flt.lt_fin_eq_false_iff]
      exact le_max_left z y
  · intro q hq hcq
    obtain ⟨h1, h2⟩ := (BoundingSpaceN.contains_eq_true_iff s q).mp hcq
    rw [BoundingSpaceN.contains_eq_true_iff]
    constructor
    · intro i
      rw [BoundingSpaceN.expand_lower_eq]
      obtain ⟨z, hz⟩ := Flt.ne_nan_elim (hp i)
      obtain ⟨x, hx⟩ := Flt.ne_nan_elim (hl i)
      obtain ⟨w, hw⟩ := Flt.ne_nan_elim (hq i)
      have := h1 i
      rw [hx, hw, Flt.gt_fin_eq_false_iff] at this
      rw [hz, hx, hw, Flt.min, Flt.gt_fin_eq_false_iff]
      exact le_trans (min_le_right z x) this
    · intro i
      rw [BoundingSpaceN.expand_upper_eq]
      obtain ⟨z, hz⟩ := Flt.ne_nan_elim (hp i)
      obtain ⟨y, hy⟩ := Flt.ne_nan_elim (hu i)
      obtain ⟨w, hw⟩ := Flt.ne_nan_elim (hq i)
      have := h2 i
      rw [hy, hw, Flt.lt_fin_eq_false_iff] at this
      rw [hz, hy, hw, Flt.max, Flt.lt_fin_eq_false_iff]
      exact le_trans this (le_max_right z y)

/-- C7 witness: region `[0, 1]` expanded with the point `2`; the point `1`
was contained before and stays contained. -/
theorem expand_contains_point_and_monotone_witness :
    ((BoundingSpaceN.from_values 1 (.fin 0) (.fin 1)).expand
        (fun _ => Flt.fin 2)).contains (fun _ => Flt.fin 2) = true ∧
    (∀ q : Fin 1 → Flt, (∀ i, q i ≠ Flt.nan) →
      (BoundingSpaceN.from_values 1 (.fin 0) (.fin 1)).contains q = true →
      ((BoundingSpaceN.from_values 1 (.fin 0) (.fin 1)).expand
        (fun _ => Flt.fin 2)).contains q = true) :=
  expand_contains_point_and_monotone (BoundingSpaceN.from_values 1 (.fin 0) (.fin 1))
    (fun _ => Flt.fin 2) (by decide) (by decide) (by decide)

/-- C8: `expand_lower` never touches `upper`, `expand_upper` never touches
`lower`, and the two sub-operations of `expand` commute. -/
theorem expand_sub_operations_commute {d : ℕ} (s : BoundingSpaceN d)
    (p : Fin d → Flt) :
    (s.expand_lower p).upper = s.upper ∧
    (s.expand_upper p).lower = s.lower ∧
    (s.expand_lower p).expand_upper p = (s.expand_upper p).expand_lower p :=
  ⟨rfl, rfl, rfl⟩

/-- C9: `new(a, b)` stores the two corner points verbatim — also when some
component of `a` exceeds the corresponding component of `b` — and
`from_values(l, u)` sets every lower component to `l` and every upper
component to `u`, with no validation in either case. -/
theorem new_and_from_values_verbatim {d : ℕ} (a b : Fin d → Flt) (l u : Flt) :
    (BoundingSpaceN.new a b).lower = a ∧
    (BoundingSpaceN.new a b).upper = b ∧
    (∀ i, (BoundingSpaceN.from_values d l u).lower i = l) ∧
    (∀ i, (BoundingSpaceN.from_values d l u).upper i = u) :=
  ⟨rfl, rfl, fun _ => rfl, fun _ => rfl⟩

/-- C10: a `NaN` component of the argument point leaves both bounds at
that index unchanged under `expand`: `min(NaN, l) = l` and
`max(NaN, u) = u`. -/
theorem expand_nan_component_unchanged {d : ℕ} (s : BoundingSpaceN d)
    (p : Fin d → Flt) (i : Fin d) (hi : p i = Flt.nan) :
    (s.expand p).lower i = s.lower i ∧ (s.expand p).upper i = s.upper i := by
  rw [BoundingSpaceN.expand_lower_eq, BoundingSpaceN.expand_upper_eq, hi]
  exact ⟨Flt.min_nan_left _, Flt.max_nan_left _⟩

/-- C10 witness: region `[0, 1]`, point with a `NaN` component. -/
theorem expand_nan_component_unchanged_witness :
    ((fun _ : Fin 1 => Flt.nan) 0 = Flt.nan) ∧
    (((BoundingSpaceN.from_values 1 (.fin 0) (.fin 1)).expand
        (fun _ => Flt.nan)).lower 0 =
      (BoundingSpaceN.from_values 1 (.fin 0) (.fin 1)).lower 0 ∧
    ((BoundingSpaceN.from_values 1 (.fin 0) (.fin 1)).expand
        (fun _ => Flt.nan)).upper 0 =
      (BoundingSpaceN.from_values 1 (.fin 0) (.fin 1)).upper 0) :=
  ⟨rfl, expand_nan_component_unchanged (BoundingSpaceN.from_values 1 (.fin 0) (.fin 1))
    (fun _ => Flt.nan) 0 rfl⟩
